import Mathlib

/-!
Shallow embedding of the gosmart device-state synchronization and
command-dispatch engine (src/api.go) and proofs about it.

Modelling conventions:
* Go `float64` attribute values are modelled as `ℚ`; no claim depends on
  floating-point rounding, only on storing and comparing values.
* A Go `map[string]float64` is a reference value.  We model the map
  contents as an association list with unique keys (`AttrMap`) and the
  reference by an address into a `Heap` (a list of allocated maps), so
  that aliasing and defensive copying are observable.
* Network fetches (`GetDevices`, `GetDeviceInfo`, `GetDeviceCommands`)
  and the transport used by `issueCommand` are passed in as deterministic
  oracles returning `Except Err _`; an `Err` covers both network and JSON
  decode failures, which the Go code treats uniformly as `error`.
* Go map iteration order is unspecified; we iterate the association list
  in order, which is harmless because all iterated maps have unique keys.
-/

namespace GoSmart

/-- Transport-level errors: any Go `error` coming out of the network or
JSON-decoding layer. -/
abbrev Err := String

/-- A raw JSON attribute value, as decoded into the Go
`DeviceInfo.Attributes` field of type `map[string]interface{}`:
a JSON number (`float64`), a string, a JSON true/false value, or anything else. -/
inductive RawVal where
  | num (q : ℚ)
  | str (s : String)
  | boolVal (b : Bool)
  | other
deriving DecidableEq, Repr

/-- Contents of a Go `map[string]float64`: an association list whose keys
are unique in every map the program builds. -/
abbrev AttrMap := List (String × ℚ)

/-- The heap of allocated attribute maps.  A Go map value is a reference:
an index into this heap. -/
abbrev Heap := List AttrMap

/-- Allocation in the style of `make(map[string]float64)` (here with arbitrary
initial contents): appends a fresh cell and returns its address. -/
def Heap.alloc (h : Heap) (m : AttrMap) : Heap × Nat :=
  (h ++ [m], h.length)

/-- Dereference a map address. -/
def Heap.read (h : Heap) (a : Nat) : AttrMap :=
  h.getD a []

/-- Overwrite the map stored at an address (mutation through a reference). -/
def Heap.write (h : Heap) (a : Nat) (m : AttrMap) : Heap :=
  h.set a m

/-- Go map assignment `m[k] = v`: overwrite the entry if the key is
present, otherwise add it. -/
def mapSet (m : AttrMap) (k : String) (v : ℚ) : AttrMap :=
  if m.any (fun kv => kv.1 = k) then
    m.map (fun kv => if kv.1 = k then (kv.1, v) else kv)
  else
    m ++ [(k, v)]

/-- The attribute-normalization switch inside `Device.Refresh`
(src/api.go lines 128-141): a `float64` passes through unchanged; the
strings `"on"` and `"present"` become `1.0` and every other string
becomes `0.0`; any other type is logged as unhandled and dropped
(no entry is produced). -/
def normalizeVal : RawVal → Option ℚ
  | .num t => some t
  | .str t => if t = "on" || t = "present" then some 1 else some 0
  | _ => none

/-- The loop `for k, v := range detail.Attributes { ... na[k] = ... }` of
`Device.Refresh`: builds the normalized map `na` from the raw attribute
map. -/
def normalizeAttrs (raw : List (String × RawVal)) : AttrMap :=
  raw.foldl
    (fun na kv =>
      match normalizeVal kv.2 with
      | some q => mapSet na kv.1 q
      | none => na)
    []

/-- Device is a representation of a Device (src/api.go lines 95-101).
The `st` back-reference is dropped (the session's client and endpoint
live in the fetch oracles) and the mutex is not modelled; `attributes`
holds the heap address of the Go map `d.attributes`. -/
structure Device where
  ID : String
  Name : String
  DisplayName : String
  Commands : List String
  attributes : Nat
deriving DecidableEq, Repr

/-- The copy loop of `Device.Attributes`:
`out := make(...); for k, v := range d.attributes { out[k] = v }`. -/
def copyAttrs (src : AttrMap) : AttrMap :=
  src.foldl (fun out kv => mapSet out kv.1 kv.2) []

/-- Translation of `Device.Attributes` (src/api.go lines 104-112): allocates a fresh map,
copies every cached entry into it and returns the fresh reference. -/
def Device.Attributes (d : Device) (h : Heap) : Heap × Nat :=
  Heap.alloc h (copyAttrs (Heap.read h d.attributes))

/-- Translation of `Device.Attribute` (src/api.go lines 115-119): the Go map read
`d.attributes[name]`, which yields the zero value `0.0` when the key is
absent. -/
def Device.Attribute (d : Device) (h : Heap) (name : String) : ℚ :=
  ((Heap.read h d.attributes).lookup name).getD 0

/-- Wire record `DeviceList` returned by `/devices` (src/api.go 183-187). -/
structure DeviceList where
  ID : String
  Name : String
  DisplayName : String
deriving DecidableEq, Repr

/-- Wire record `DeviceInfo`: the summary fields plus the raw attribute
map (src/api.go 190-193). -/
structure DeviceInfo extends DeviceList where
  Attributes : List (String × RawVal)
deriving DecidableEq, Repr

/-- Wire record `DeviceCommand` (src/api.go 196-199); `Params` is carried
but never consumed. -/
structure DeviceCommand where
  Command : String
  Params : List (String × RawVal)
deriving DecidableEq, Repr

/-- Translation of `Device.Refresh` (src/api.go lines 122-146).  The combined
fetch-and-decode result of `GetDeviceInfo` is the `detail` argument.  On
error the error is returned at once; on success the normalized map is
built, allocated, and swapped in (`d.attributes = na`). -/
def Device.Refresh (d : Device) (h : Heap) (detail : Except Err DeviceInfo) :
    Except Err Unit × Heap × Device :=
  match detail with
  | .error e => (.error e, h, d)
  | .ok info =>
      let na := normalizeAttrs info.Attributes
      let p := Heap.alloc h na
      (.ok (), p.1, { d with attributes := p.2 })

/-- The scan of `Device.HasCommand` (src/api.go lines 148-155): walk the
command list and return true on the first match. -/
def hasCommandLoop (cmd : String) : List String → Bool
  | [] => false
  | c :: rest => if c = cmd then true else hasCommandLoop cmd rest

/-- Translation of `Device.HasCommand`: membership test against the cached command set. -/
def Device.HasCommand (d : Device) (cmd : String) : Bool :=
  hasCommandLoop cmd d.Commands

/-- Errors `Device.Call` can return: the two locally produced validation
errors (`fmt.Errorf("unavailable command: %v", cmd)` and
`errors.New("too many arguments")`) and a transport failure from
`issueCommand`. -/
inductive CallError where
  | unavailableCommand (cmd : String)
  | tooManyArguments
  | transport (e : Err)
deriving DecidableEq, Repr

/-- The authenticated transport: `issueCommand` reduced to the request
path it is given (client and endpoint are fixed for a session). -/
abbrev Transport := String → Except Err Unit

/-- Rendering of a float argument by `fmt.Sprintf("%v", a)`.  The exact
rendering is irrelevant to every claim; only the request path's shape
matters. -/
def formatArg (a : ℚ) : String := toString a

/-- Translation of `Device.Call` (src/api.go lines 157-180).  Returns the call result,
the list of requests issued to the transport during the call, and the
heap (which `Call` never writes).  The `found` flag is computed by a full
scan exactly as in the source; validation failures return before any
request is issued. -/
def Device.Call (d : Device) (h : Heap) (tr : Transport) (cmd : String)
    (args : List ℚ) : Except CallError Unit × List String × Heap :=
  let found := d.Commands.foldl (fun acc c => if cmd = c then true else acc) false
  if !found then
    (.error (.unavailableCommand cmd), [], h)
  else if args.length > 1 then
    (.error .tooManyArguments, [], h)
  else
    let path := "/devices/" ++ d.ID ++ "/" ++ cmd
    let path := if args.length > 0 then
        path ++ "/" ++ String.intercalate "/" (args.map formatArg)
      else path
    match tr path with
    | .error e => (.error (.transport e), [path], h)
    | .ok _ => (.ok (), [path], h)

/-- Represents all smart things; only the mutable device collection is
modelled (client and endpoint live in the fetch oracles). -/
structure SmartThings where
  Devices : List Device
deriving DecidableEq, Repr

/-- The three fetch-and-decode operations used by `SmartThings.Refresh`,
as deterministic oracles. -/
structure Fetchers where
  GetDevices : Except Err (List DeviceList)
  GetDeviceInfo : String → Except Err DeviceInfo
  GetDeviceCommands : String → Except Err (List DeviceCommand)

/-- The de-duplication loop of `SmartThings.Refresh` (src/api.go lines
76-84): `cmds` is the set of names already seen; a name already seen is
skipped, otherwise it is appended and recorded. -/
def buildCommandsAux (cmds : List String) : List DeviceCommand → List String
  | [] => []
  | dc :: rest =>
      if dc.Command ∈ cmds then buildCommandsAux cmds rest
      else dc.Command :: buildCommandsAux (dc.Command :: cmds) rest

/-- Builds `nd.Commands` from the raw command descriptors. -/
def buildCommands (dcs : List DeviceCommand) : List String :=
  buildCommandsAux [] dcs

/-- One iteration of the device loop in `SmartThings.Refresh` (src/api.go
lines 60-90): allocate the device's empty attribute map, fetch detail and
command descriptors, build the device, and run its first refresh.  Any
failure is returned as-is. -/
def processOne (f : Fetchers) (h : Heap) (rd : DeviceList) :
    Except Err Device × Heap :=
  let p := Heap.alloc h []
  match f.GetDeviceInfo rd.ID with
  | .error e => (.error e, p.1)
  | .ok detail =>
      match f.GetDeviceCommands rd.ID with
      | .error e => (.error e, p.1)
      | .ok dcs =>
          let nd : Device :=
            { ID := rd.ID, Name := detail.Name,
              DisplayName := detail.DisplayName,
              Commands := buildCommands dcs, attributes := p.2 }
          match Device.Refresh nd p.1 (f.GetDeviceInfo nd.ID) with
          | (.error e, h2, _) => (.error e, h2)
          | (.ok _, h2, nd2) => (.ok nd2, h2)

/-- The device loop of `SmartThings.Refresh`: `devs` is the collection
appended so far (`st.Devices`, already cleared before the loop).  On a
per-device failure the loop stops and the devices appended so far stay
committed, exactly as the Go code leaves `st.Devices`. -/
def refreshLoop (f : Fetchers) :
    List DeviceList → Heap → List Device → Except Err Unit × Heap × List Device
  | [], h, devs => (.ok (), h, devs)
  | rd :: rest, h, devs =>
      match processOne f h rd with
      | (.error e, h1) => (.error e, h1, devs)
      | (.ok nd, h1) => refreshLoop f rest h1 (devs ++ [nd])

/-- Translation of `SmartThings.Refresh` (src/api.go lines 54-92): fetch the summary
list; on success clear `st.Devices` (`st.Devices = nil`) and run the
device loop; the devices accumulated by the loop are what `st.Devices`
holds afterwards, whether or not the loop failed midway. -/
def SmartThings.Refresh (st : SmartThings) (f : Fetchers) (h : Heap) :
    Except Err Unit × Heap × SmartThings :=
  match f.GetDevices with
  | .error e => (.error e, h, st)
  | .ok all =>
      let r := refreshLoop f all h []
      (r.1, r.2.1, { st with Devices := r.2.2 })

/-- Reference first-seen-order de-duplication: keep the first occurrence
of every name, drop the later duplicates. -/
def firstSeen : List String → List String
  | [] => []
  | a :: l => a :: firstSeen (l.filter (fun b => b ≠ a))
termination_by l => l.length
decreasing_by
  simp only [List.length_cons]
  exact Nat.lt_succ_of_le (List.length_filter_le _ _)

/-- The result of normalization, written as a direct filter-map; the
fold `normalizeAttrs` coincides with it on unique-key inputs. -/
def normList (raw : List (String × RawVal)) : AttrMap :=
  raw.filterMap (fun kv => (normalizeVal kv.2).map (fun q => (kv.1, q)))

lemma hasCommandLoop_iff (cmd : String) (l : List String) :
    hasCommandLoop cmd l = true ↔ cmd ∈ l := by
  induction l with
  | nil => simp [hasCommandLoop]
  | cons c rest ih =>
      by_cases hc : c = cmd
      · simp [hasCommandLoop, hc]
      · simp only [hasCommandLoop, if_neg hc, ih, List.mem_cons]
        constructor
        · exact Or.inr
        · rintro (h | h)
          · exact absurd h.symm hc
          · exact h

lemma foldl_found_eq (cmd : String) (l : List String) :
    ∀ b : Bool, l.foldl (fun acc c => if cmd = c then true else acc) b
      = (b || decide (cmd ∈ l)) := by
  induction l with
  | nil => intro b; simp
  | cons c rest ih =>
      intro b
      simp only [List.foldl_cons]
      by_cases hc : cmd = c
      · rw [if_pos hc, ih true]
        simp [List.mem_cons, hc]
      · rw [if_neg hc, ih b]
        simp [List.mem_cons, hc]

lemma call_not_found (d : Device) (h : Heap) (tr : Transport) (cmd : String)
    (args : List ℚ) (hmem : cmd ∉ d.Commands) :
    d.Call h tr cmd args = (.error (.unavailableCommand cmd), [], h) := by
  have hf : decide (cmd ∈ d.Commands) = false := decide_eq_false hmem
  simp only [Device.Call, foldl_found_eq, Bool.false_or, hf]
  simp

lemma call_tooMany (d : Device) (h : Heap) (tr : Transport) (cmd : String)
    (args : List ℚ) (hmem : cmd ∈ d.Commands) (hlen : 1 < args.length) :
    d.Call h tr cmd args = (.error .tooManyArguments, [], h) := by
  have hf : decide (cmd ∈ d.Commands) = true := decide_eq_true hmem
  simp only [Device.Call, foldl_found_eq, Bool.false_or, hf]
  simp [hlen]

lemma call_dispatch (d : Device) (h : Heap) (tr : Transport) (cmd : String)
    (args : List ℚ) (hmem : cmd ∈ d.Commands) (hlen : ¬ 1 < args.length) :
    (d.Call h tr cmd args).1 = .ok () ∨
      ∃ e, (d.Call h tr cmd args).1 = .error (.transport e) := by
  have hf : decide (cmd ∈ d.Commands) = true := decide_eq_true hmem
  simp only [Device.Call, foldl_found_eq, Bool.false_or, hf]
  rw [if_neg (by simp), if_neg hlen]
  split
  · exact Or.inr ⟨_, rfl⟩
  · exact Or.inl rfl

lemma lookup_eq_none {β : Type} (l : List (String × β)) (k : String)
    (hk : k ∉ l.map Prod.fst) : l.lookup k = none := by
  induction l with
  | nil => rfl
  | cons kv rest ih =>
      obtain ⟨a, b⟩ := kv
      simp only [List.map_cons, List.mem_cons] at hk
      push_neg at hk
      have hba : (k == a) = false := beq_eq_false_iff_ne.mpr hk.1
      simp [List.lookup, ih hk.2, hba]

lemma normList_keys_sub (raw : List (String × RawVal)) (k : String)
    (hk : k ∈ (normList raw).map Prod.fst) : k ∈ raw.map Prod.fst := by
  simp only [normList, List.map_filterMap, List.mem_filterMap] at hk
  obtain ⟨kv, hkv, hopt⟩ := hk
  cases hv : normalizeVal kv.2 with
  | none => rw [hv] at hopt; simp at hopt
  | some q =>
      rw [hv] at hopt
      simp only [Option.map_map, Option.map_some] at hopt
      have : k = kv.1 := by
        cases hopt; rfl
      exact this ▸ List.mem_map_of_mem Prod.fst hkv

lemma lookup_normList (raw : List (String × RawVal)) (k : String)
    (hnd : (raw.map Prod.fst).Nodup) :
    (normList raw).lookup k = (raw.lookup k).bind normalizeVal := by
  induction raw with
  | nil => rfl
  | cons kv rest ih =>
      obtain ⟨a, v⟩ := kv
      simp only [List.map_cons, List.nodup_cons] at hnd
      by_cases hka : k = a
      · subst hka
        cases hv : normalizeVal v with
        | none =>
            have h1 : normList ((k, v) :: rest) = normList rest := by
              simp [normList, hv]
            have h2 : (normList rest).lookup k = none :=
              lookup_eq_none _ _ (fun hmem => hnd.1 (normList_keys_sub rest k hmem))
            simp [h1, h2, List.lookup, hv]
        | some q =>
            have h1 : normList ((k, v) :: rest) = (k, q) :: normList rest := by
              simp [normList, hv]
            simp [h1, List.lookup, hv]
      · have hba : (k == a) = false := beq_eq_false_iff_ne.mpr hka
        cases hv : normalizeVal v with
        | none =>
            have h1 : normList ((a, v) :: rest) = normList rest := by
              simp [normList, hv]
            simp [h1, List.lookup, hba, ih hnd.2]
        | some q =>
            have h1 : normList ((a, v) :: rest) = (a, q) :: normList rest := by
              simp [normList, hv]
            simp [h1, List.lookup, hba, ih hnd.2]

lemma mapSet_of_not_mem (m : AttrMap) (k : String) (v : ℚ)
    (hk : k ∉ m.map Prod.fst) : mapSet m k v = m ++ [(k, v)] := by
  have hany : ¬ (m.any (fun kv => kv.1 = k) = true) := by
    simp only [List.any_eq_true, decide_eq_true_eq]
    rintro ⟨kv, hkv, rfl⟩
    exact hk (List.mem_map_of_mem Prod.fst hkv)
  rw [mapSet, if_neg hany]

lemma foldl_copy_eq (src : AttrMap) :
    ∀ acc : AttrMap, (src.map Prod.fst).Nodup →
    (∀ k ∈ src.map Prod.fst, k ∉ acc.map Prod.fst) →
    src.foldl (fun out kv => mapSet out kv.1 kv.2) acc = acc ++ src := by
  induction src with
  | nil => intro acc _ _; simp
  | cons kv rest ih =>
      intro acc hnd hdisj
      obtain ⟨a, v⟩ := kv
      simp only [List.map_cons, List.nodup_cons] at hnd
      have ha : a ∉ acc.map Prod.fst := hdisj a (by simp)
      rw [List.foldl_cons, mapSet_of_not_mem _ _ _ ha,
        ih (acc ++ [(a, v)]) hnd.2 ?_]
      · simp
      · intro k hk
        simp only [List.map_append, List.mem_append, List.map_cons,
          List.map_nil, List.mem_singleton]
        rintro (hacc | hsingle)
        · exact hdisj k (by simp [hk]) hacc
        · exact hnd.1 (hsingle ▸ hk)

lemma copyAttrs_eq (src : AttrMap) (hnd : (src.map Prod.fst).Nodup) :
    copyAttrs src = src := by
  rw [copyAttrs, foldl_copy_eq src [] hnd (by simp), List.nil_append]

lemma foldl_norm_eq (raw : List (String × RawVal)) :
    ∀ acc : AttrMap, (raw.map Prod.fst).Nodup →
    (∀ k ∈ raw.map Prod.fst, k ∉ acc.map Prod.fst) →
    raw.foldl
      (fun na kv =>
        match normalizeVal kv.2 with
        | some q => mapSet na kv.1 q
        | none => na)
      acc = acc ++ normList raw := by
  induction raw with
  | nil => intro acc _ _; simp [normList]
  | cons kv rest ih =>
      intro acc hnd hdisj
      obtain ⟨a, v⟩ := kv
      simp only [List.map_cons, List.nodup_cons] at hnd
      have ha : a ∉ acc.map Prod.fst := hdisj a (by simp)
      rw [List.foldl_cons]
      cases hv : normalizeVal v with
      | none =>
          simp only [hv]
          rw [ih acc hnd.2 (fun k hk => hdisj k (by simp [hk]))]
          have h1 : normList ((a, v) :: rest) = normList rest := by
            simp [normList, hv]
          rw [h1]
      | some q =>
          simp only [hv]
          rw [mapSet_of_not_mem _ _ _ ha, ih (acc ++ [(a, q)]) hnd.2 ?_]
          · have h1 : normList ((a, v) :: rest) = (a, q) :: normList rest := by
              simp [normList, hv]
            rw [h1, List.append_assoc]
            rfl
          · intro k hk
            simp only [List.map_append, List.mem_append, List.map_cons,
              List.map_nil, List.mem_singleton]
            rintro (hacc | hsingle)
            · exact hdisj k (by simp [hk]) hacc
            · exact hnd.1 (hsingle ▸ hk)

lemma normalizeAttrs_eq (raw : List (String × RawVal))
    (hnd : (raw.map Prod.fst).Nodup) : normalizeAttrs raw = normList raw := by
  rw [normalizeAttrs, foldl_norm_eq raw [] hnd (by simp), List.nil_append]

lemma read_alloc_same (h : Heap) (m : AttrMap) :
    Heap.read (h ++ [m]) h.length = m := by
  simp [Heap.read, List.getD_eq_getElem?_getD, List.getElem?_concat_length]

lemma read_append_lt (h : Heap) (x : AttrMap) (i : Nat) (hi : i < h.length) :
    Heap.read (h ++ [x]) i = Heap.read h i := by
  simp [Heap.read, List.getD_eq_getElem?_getD, List.getElem?_append, hi]

lemma read_write_ne (h : Heap) (i j : Nat) (m : AttrMap) (hij : i ≠ j) :
    Heap.read (Heap.write h i m) j = Heap.read h j := by
  simp [Heap.read, Heap.write, List.getD_eq_getElem?_getD,
    List.getElem?_set_ne hij]

lemma mem_firstSeen (l : List String) : ∀ a, a ∈ firstSeen l → a ∈ l := by
  induction l using firstSeen.induct with
  | case1 => intro a ha; rw [firstSeen] at ha; cases ha
  | case2 b l ih =>
      intro a ha
      rw [firstSeen] at ha
      rcases List.mem_cons.mp ha with h | h
      · exact h ▸ List.mem_cons_self b l
      · exact List.mem_cons_of_mem b (List.mem_filter.mp (ih a h)).1

lemma firstSeen_nodup (l : List String) : (firstSeen l).Nodup := by
  induction l using firstSeen.induct with
  | case1 => simp [firstSeen]
  | case2 a l ih =>
      rw [firstSeen, List.nodup_cons]
      refine ⟨fun ha => ?_, ih⟩
      have := (List.mem_filter.mp (mem_firstSeen _ _ ha)).2
      simp at this

lemma buildCommandsAux_eq (dcs : List DeviceCommand) :
    ∀ seen : List String,
      buildCommandsAux seen dcs
        = firstSeen ((dcs.map DeviceCommand.Command).filter
            (fun c => decide (c ∉ seen))) := by
  induction dcs with
  | nil => intro seen; simp [buildCommandsAux, firstSeen]
  | cons dc rest ih =>
      intro seen
      by_cases hmem : dc.Command ∈ seen
      · rw [buildCommandsAux, if_pos hmem, ih seen]
        simp only [List.map_cons, List.filter_cons]
        rw [if_neg (by simp [hmem])]
      · rw [buildCommandsAux, if_neg hmem, ih (dc.Command :: seen)]
        simp only [List.map_cons, List.filter_cons]
        rw [if_pos (by simp [hmem]), firstSeen, List.filter_filter]
        have hfil : List.filter (fun a => decide (a ≠ dc.Command) && decide (a ∉ seen))
              (List.map DeviceCommand.Command rest)
            = List.filter (fun c => decide (c ∉ dc.Command :: seen))
              (List.map DeviceCommand.Command rest) := by
          refine List.filter_congr fun c _ => ?_
          by_cases h1 : c = dc.Command <;> by_cases h2 : c ∈ seen <;>
            simp [h1, h2]
        rw [hfil]

lemma buildCommands_eq (dcs : List DeviceCommand) :
    buildCommands dcs = firstSeen (dcs.map DeviceCommand.Command) := by
  rw [buildCommands, buildCommandsAux_eq dcs []]
  congr 1
  simp

lemma processOne_ok (f : Fetchers) (h : Heap) (rd : DeviceList) (nd : Device)
    (h1 : Heap) (hp : processOne f h rd = (.ok nd, h1)) :
    nd.ID = rd.ID ∧ ∃ dcs, f.GetDeviceCommands rd.ID = .ok dcs ∧
      nd.Commands = buildCommands dcs := by
  rcases hinfo : f.GetDeviceInfo rd.ID with e | detail
  · simp only [processOne, hinfo] at hp
    simp at hp
  · rcases hcmds : f.GetDeviceCommands rd.ID with e | dcs
    · simp only [processOne, hinfo, hcmds] at hp
      simp at hp
    · simp only [processOne, hinfo, hcmds, Device.Refresh] at hp
      simp only [Prod.mk.injEq, Except.ok.injEq] at hp
      refine ⟨?_, dcs, rfl, ?_⟩
      · rw [← hp.1]
      · rw [← hp.1]

lemma refreshLoop_mem (f : Fetchers) :
    ∀ (rest : List DeviceList) (h : Heap) (devs : List Device) (d : Device),
      d ∈ (refreshLoop f rest h devs).2.2 →
      d ∈ devs ∨ ∃ dcs, f.GetDeviceCommands d.ID = .ok dcs ∧
        d.Commands = buildCommands dcs := by
  intro rest
  induction rest with
  | nil =>
      intro h devs d hd
      exact Or.inl hd
  | cons rd rest ih =>
      intro h devs d hd
      cases hp : processOne f h rd with
      | mk r h1 =>
          cases r with
          | error e =>
              simp only [refreshLoop, hp] at hd
              exact Or.inl hd
          | ok nd =>
              simp only [refreshLoop, hp] at hd
              rcases ih h1 (devs ++ [nd]) d hd with hin | hex
              · rcases List.mem_append.mp hin with h2 | h2
                · exact Or.inl h2
                · have hdnd : d = nd := by simpa using h2
                  subst hdnd
                  obtain ⟨hid, dcs, hdc, hbc⟩ := processOne_ok f h rd d h1 hp
                  exact Or.inr ⟨dcs, by rw [hid]; exact hdc, hbc⟩
              · exact Or.inr hex

lemma refreshLoop_error_prefix (f : Fetchers) :
    ∀ (rest : List DeviceList) (h : Heap) (devs : List Device) (e : Err),
      (refreshLoop f rest h devs).1 = .error e →
      ∃ n, (refreshLoop f (rest.take n) h devs).1 = .ok () ∧
        (refreshLoop f rest h devs).2.2 = (refreshLoop f (rest.take n) h devs).2.2 := by
  intro rest
  induction rest with
  | nil =>
      intro h devs e he
      simp [refreshLoop] at he
  | cons rd rest ih =>
      intro h devs e he
      cases hp : processOne f h rd with
      | mk r h1 =>
          cases r with
          | error e' =>
              refine ⟨0, by simp [refreshLoop], ?_⟩
              simp only [List.take_zero, refreshLoop, hp]
          | ok nd =>
              simp only [refreshLoop, hp] at he ⊢
              obtain ⟨n, hok, heq⟩ := ih h1 (devs ++ [nd]) e he
              refine ⟨n + 1, ?_, ?_⟩
              · simpa only [List.take_succ_cons, refreshLoop, hp] using hok
              · simpa only [List.take_succ_cons, refreshLoop, hp] using heq

/-! Concrete fixtures used by counterexamples and witnesses. -/

/-- A cached device: one known command and an attribute map at heap
address 0. -/
def devA : Device :=
  { ID := "dev1", Name := "lamp", DisplayName := "Lamp",
    Commands := ["on"], attributes := 0 }

/-- Heap holding `devA`'s cached attribute map. -/
def heapA : Heap := [[("x", 5)]]

/-- A transport that accepts every request. -/
def trOk : Transport := fun _ => .ok ()

/-- A session whose collection holds the previously cached `devA`. -/
def stA : SmartThings := { Devices := [devA] }

/-- First device summary returned by the device-list fetch. -/
def entry1 : DeviceList := { ID := "id1", Name := "n1", DisplayName := "dn1" }

/-- Second device summary returned by the device-list fetch. -/
def entry2 : DeviceList := { ID := "id2", Name := "n2", DisplayName := "dn2" }

/-- Fetch oracle where the second device's detail fetch fails. -/
def fetchFail2 : Fetchers :=
  { GetDevices := .ok [entry1, entry2],
    GetDeviceInfo := fun i =>
      if i = "id1" then .ok ⟨⟨"id1", "n1", "dn1"⟩, []⟩ else .error "boom",
    GetDeviceCommands := fun _ => .ok [] }

/-- Fetch oracle for one device whose command descriptors repeat a name. -/
def fetchDup : Fetchers :=
  { GetDevices := .ok [entry1],
    GetDeviceInfo := fun _ => .ok ⟨⟨"id1", "n1", "dn1"⟩, []⟩,
    GetDeviceCommands := fun _ => .ok [⟨"on", []⟩, ⟨"off", []⟩, ⟨"on", []⟩] }

/-- The device built by a successful refresh against `fetchDup`. -/
def devDup : Device :=
  { ID := "id1", Name := "n1", DisplayName := "dn1",
    Commands := ["on", "off"], attributes := 1 }

/-- The raw attribute map of the specification's normalization scenario. -/
def rawScenario : List (String × RawVal) :=
  [("switch", .str "on"), ("level", .num 42), ("flag", .boolVal true)]

/-- Heap fixture for the snapshot claim. -/
def heapB : Heap := [[("a", 1), ("b", 2)]]

/-- Device fixture for the snapshot claim. -/
def devB : Device :=
  { ID := "d", Name := "d", DisplayName := "d", Commands := [],
    attributes := 0 }

/-- Heap fixture for the single-attribute claim. -/
def heapC : Heap := [[("temp", 7)]]

/-- Device fixture for the single-attribute claim. -/
def devC : Device :=
  { ID := "t", Name := "t", DisplayName := "t", Commands := [],
    attributes := 0 }

/-! The claims. -/

/-- Claim C1, counterexample: a Session refresh on a session that already
caches one device, where the second device's detail fetch fails, returns
the error but leaves the device collection holding the one newly built
device — a partial catalog — instead of the collection from before the
refresh attempt. -/
theorem claim_C1_counterexample :
    (SmartThings.Refresh stA fetchFail2 heapA).1 = Except.error "boom" ∧
    (SmartThings.Refresh stA fetchFail2 heapA).2.2.Devices ≠ stA.Devices := by
  constructor
  · rfl
  · decide

/-- Claim C1, amended: if the device-list fetch itself succeeded but the
refresh failed (some per-device detail or command-list fetch failed), the
refresh returns the error, yet the previous device collection is not kept:
`st.Devices` afterwards holds exactly the devices built from some
successfully processed first part of the fetched summary list — possibly
a partial catalog of fewer devices. -/
theorem claim_C1_amended (st : SmartThings) (f : Fetchers) (h : Heap)
    (e : Err) (all : List DeviceList)
    (hall : f.GetDevices = .ok all)
    (herr : (st.Refresh f h).1 = .error e) :
    ∃ n, (refreshLoop f (all.take n) h []).1 = .ok () ∧
      (st.Refresh f h).2.2.Devices = (refreshLoop f (all.take n) h []).2.2 := by
  have hr : st.Refresh f h
      = ((refreshLoop f all h []).1, (refreshLoop f all h []).2.1,
         { st with Devices := (refreshLoop f all h []).2.2 }) := by
    simp [SmartThings.Refresh, hall]
  rw [hr] at herr
  obtain ⟨n, hok, heq⟩ := refreshLoop_error_prefix f all h [] e herr
  refine ⟨n, hok, ?_⟩
  rw [hr]
  simpa using heq

/-- Witness for the amended claim C1 at the concrete failing scenario. -/
theorem claim_C1_amended_witness :
    ∃ n, (refreshLoop fetchFail2 ([entry1, entry2].take n) heapA []).1
        = Except.ok () ∧
      (SmartThings.Refresh stA fetchFail2 heapA).2.2.Devices
        = (refreshLoop fetchFail2 ([entry1, entry2].take n) heapA []).2.2 :=
  claim_C1_amended stA fetchFail2 heapA "boom" [entry1, entry2] rfl rfl

/-- Claim C2: during normalization a numeric raw value maps to itself,
the strings "on" and "present" map to 1.0, every other string maps to
0.0, and a value of any other type leaves its key absent from the
resulting map (on unique-key raw maps, the normalized map's lookup is
exactly raw lookup followed by the normalization switch). -/
theorem claim_C2 (raw : List (String × RawVal)) (k : String) (q : ℚ)
    (s : String) (b : Bool) :
    ((raw.map Prod.fst).Nodup →
      (normalizeAttrs raw).lookup k = (raw.lookup k).bind normalizeVal) ∧
    normalizeVal (.num q) = some q ∧
    normalizeVal (.str "on") = some 1 ∧
    normalizeVal (.str "present") = some 1 ∧
    (s ≠ "on" → s ≠ "present" → normalizeVal (.str s) = some 0) ∧
    normalizeVal (.boolVal b) = none ∧
    normalizeVal .other = none := by
  refine ⟨fun hnd => ?_, rfl, by decide, by decide, fun h1 h2 => ?_, rfl, rfl⟩
  · rw [normalizeAttrs_eq raw hnd, lookup_normList raw k hnd]
  · simp [normalizeVal, h1, h2]

/-- Witness for claim C2 on the specification's scenario map
`{"switch": "on", "level": 42, "flag": true}`. -/
theorem claim_C2_witness :
    (normalizeAttrs rawScenario).lookup "switch" = some 1 ∧
    (normalizeAttrs rawScenario).lookup "level" = some 42 ∧
    (normalizeAttrs rawScenario).lookup "flag" = none := by
  have h1 := (claim_C2 rawScenario "switch" 0 "" false).1 (by decide)
  have h2 := (claim_C2 rawScenario "level" 0 "" false).1 (by decide)
  have h3 := (claim_C2 rawScenario "flag" 0 "" false).1 (by decide)
  exact ⟨h1.trans (by decide), h2.trans (by decide), h3.trans (by decide)⟩

/-- Claim C3: for every device, command name and argument list, Call
fails with the "unavailable command" error naming the command precisely
when the command is not in the device's current command set, whatever the
number of arguments. -/
theorem claim_C3 (d : Device) (h : Heap) (tr : Transport) (cmd : String)
    (args : List ℚ) :
    (d.Call h tr cmd args).1 = .error (.unavailableCommand cmd) ↔
      cmd ∉ d.Commands := by
  constructor
  · intro hres
    by_contra hmem
    by_cases hlen : 1 < args.length
    · rw [call_tooMany d h tr cmd args hmem hlen] at hres
      simp at hres
    · rcases call_dispatch d h tr cmd args hmem hlen with hok | ⟨e, he⟩
      · rw [hres] at hok
        simp at hok
      · rw [hres] at he
        simp at he
  · intro hmem
    rw [call_not_found d h tr cmd args hmem]

/-- Claim C4, counterexample: with two arguments and a command name that
is not in the command set, Call fails with "unavailable command", not
with "too many arguments" — so a two-argument Call does not always fail
with the "too many arguments" error. -/
theorem claim_C4_counterexample :
    (devA.Call heapA trOk "off" [1, 2]).1
        = .error (.unavailableCommand "off") ∧
    ¬ (devA.Call heapA trOk "off" [1, 2]).1 = .error .tooManyArguments := by
  refine ⟨rfl, fun hc => ?_⟩
  rw [show (devA.Call heapA trOk "off" [1, 2]).1
      = .error (.unavailableCommand "off") from rfl] at hc
  simp at hc

/-- Claim C4, amended: Call invoked with two or more arguments always
fails; it fails with the "too many arguments" error when the command name
is valid (present in the device's command set), and with the
"unavailable command" error when it is not. -/
theorem claim_C4_amended (d : Device) (h : Heap) (tr : Transport)
    (cmd : String) (args : List ℚ) (hlen : 2 ≤ args.length) :
    (cmd ∈ d.Commands →
      (d.Call h tr cmd args).1 = .error .tooManyArguments) ∧
    (cmd ∉ d.Commands →
      (d.Call h tr cmd args).1 = .error (.unavailableCommand cmd)) := by
  refine ⟨fun hmem => ?_, fun hmem => ?_⟩
  · rw [call_tooMany d h tr cmd args hmem (by omega)]
  · rw [call_not_found d h tr cmd args hmem]

/-- Witness for the amended claim C4 at concrete two-argument calls. -/
theorem claim_C4_amended_witness :
    (devA.Call heapA trOk "on" [1, 2]).1 = .error .tooManyArguments ∧
    (devA.Call heapA trOk "off" [1, 2]).1
        = .error (.unavailableCommand "off") :=
  ⟨(claim_C4_amended devA heapA trOk "on" [1, 2] (by decide)).1 (by decide),
   (claim_C4_amended devA heapA trOk "off" [1, 2] (by decide)).2 (by decide)⟩

/-- Claim C5: on a valid map reference with unique keys, Attributes
returns a freshly allocated map whose contents equal the cached map but
whose address differs from the cached one, and overwriting the returned
map leaves the device's cached map unchanged. -/
theorem claim_C5 (h : Heap) (d : Device)
    (hv : d.attributes < h.length)
    (hnd : ((Heap.read h d.attributes).map Prod.fst).Nodup) :
    (d.Attributes h).2 ≠ d.attributes ∧
    Heap.read (d.Attributes h).1 (d.Attributes h).2
        = Heap.read h d.attributes ∧
    ∀ m : AttrMap,
      Heap.read (Heap.write (d.Attributes h).1 (d.Attributes h).2 m)
          d.attributes
        = Heap.read h d.attributes := by
  have hA : d.Attributes h
      = (h ++ [copyAttrs (Heap.read h d.attributes)], h.length) := rfl
  refine ⟨?_, ?_, ?_⟩
  · rw [hA]
    exact ne_of_gt hv
  · rw [hA, read_alloc_same]
    exact copyAttrs_eq _ hnd
  · intro m
    rw [hA, read_write_ne _ _ _ _ (ne_of_gt hv), read_append_lt _ _ _ hv]

/-- Witness for claim C5: copying, non-aliasing and frame preservation at
a concrete heap and device. -/
theorem claim_C5_witness :
    (devB.Attributes heapB).2 ≠ devB.attributes ∧
    Heap.read (devB.Attributes heapB).1 (devB.Attributes heapB).2
        = Heap.read heapB devB.attributes ∧
    Heap.read
        (Heap.write (devB.Attributes heapB).1 (devB.Attributes heapB).2
          [("z", 9)])
        devB.attributes
      = Heap.read heapB devB.attributes := by
  obtain ⟨h1, h2, h3⟩ := claim_C5 heapB devB (by decide) (by decide)
  exact ⟨h1, h2, h3 [("z", 9)]⟩

/-- Claim C6: Attribute returns the cached value when the name is present
and the zero value 0.0 when it is absent; absence is never an error. -/
theorem claim_C6 (d : Device) (h : Heap) (name : String) :
    (∀ v : ℚ, (Heap.read h d.attributes).lookup name = some v →
      d.Attribute h name = v) ∧
    ((Heap.read h d.attributes).lookup name = none →
      d.Attribute h name = 0) := by
  constructor
  · intro v hv
    rw [Device.Attribute, hv]
    rfl
  · intro hn
    rw [Device.Attribute, hn]
    rfl

/-- Witness for claim C6 at a concrete present and absent attribute. -/
theorem claim_C6_witness :
    devC.Attribute heapC "temp" = 7 ∧ devC.Attribute heapC "hum" = 0 :=
  ⟨(claim_C6 devC heapC "temp").1 7 (by decide),
   (claim_C6 devC heapC "hum").2 (by decide)⟩

/-- Claim C7: every device in the collection after a successful Session
refresh has a duplicate-free command set whose order is the first-seen
order of the names in the raw descriptor list fetched for it. -/
theorem claim_C7 (st : SmartThings) (f : Fetchers) (h : Heap)
    (hok : (st.Refresh f h).1 = .ok ()) :
    ∀ d ∈ (st.Refresh f h).2.2.Devices,
      d.Commands.Nodup ∧
      ∃ dcs, f.GetDeviceCommands d.ID = .ok dcs ∧
        d.Commands = firstSeen (dcs.map DeviceCommand.Command) := by
  intro d hd
  rcases hall : f.GetDevices with e | all
  · simp only [SmartThings.Refresh, hall] at hok
    simp at hok
  · simp only [SmartThings.Refresh, hall] at hd
    rcases refreshLoop_mem f all h [] d hd with hin | ⟨dcs, hdc, hbc⟩
    · cases hin
    · refine ⟨?_, dcs, hdc, ?_⟩
      · rw [hbc, buildCommands_eq]
        exact firstSeen_nodup _
      · rw [hbc, buildCommands_eq]

/-- Witness for claim C7: a successful refresh whose raw descriptor list
repeats "on" yields the de-duplicated, first-seen-ordered command set. -/
theorem claim_C7_witness :
    devDup.Commands.Nodup ∧
    ∃ dcs, fetchDup.GetDeviceCommands devDup.ID = .ok dcs ∧
      devDup.Commands = firstSeen (dcs.map DeviceCommand.Command) :=
  claim_C7 stA fetchDup [] rfl devDup (by decide)

/-- Claim C8: when Call fails with a locally produced CommandError
(unavailable command or too many arguments), no request is issued to the
transport and the heap of cached attribute maps is unchanged. -/
theorem claim_C8 (d : Device) (h : Heap) (tr : Transport) (cmd : String)
    (args : List ℚ)
    (hloc : (∃ s, (d.Call h tr cmd args).1
        = .error (.unavailableCommand s)) ∨
      (d.Call h tr cmd args).1 = .error .tooManyArguments) :
    (d.Call h tr cmd args).2.1 = [] ∧ (d.Call h tr cmd args).2.2 = h := by
  by_cases hmem : cmd ∈ d.Commands
  · by_cases hlen : 1 < args.length
    · rw [call_tooMany d h tr cmd args hmem hlen]
      exact ⟨rfl, rfl⟩
    · exfalso
      rcases call_dispatch d h tr cmd args hmem hlen with hok | ⟨e, he⟩
      · rcases hloc with ⟨s, hs⟩ | ht
        · rw [hok] at hs
          simp at hs
        · rw [hok] at ht
          simp at ht
      · rcases hloc with ⟨s, hs⟩ | ht
        · rw [he] at hs
          simp at hs
        · rw [he] at ht
          simp at ht
  · rw [call_not_found d h tr cmd args hmem]
    exact ⟨rfl, rfl⟩

/-- Witness for claim C8 at a concrete locally failing call. -/
theorem claim_C8_witness :
    (devA.Call heapA trOk "off" []).2.1 = [] ∧
    (devA.Call heapA trOk "off" []).2.2 = heapA :=
  claim_C8 devA heapA trOk "off" [] (Or.inl ⟨"off", rfl⟩)

/-- Claim C9: a failed single-device refresh returns the error and leaves
both the heap of cached maps and the device record exactly as they were
before the attempt. -/
theorem claim_C9 (d : Device) (h : Heap) (e : Err) :
    Device.Refresh d h (Except.error e) = (Except.error e, h, d) := rfl

/-- Claim C10: HasCommand answers true exactly when Call with that
command name (and any argument list) does not fail with an "unavailable
command" error. -/
theorem claim_C10 (d : Device) (h : Heap) (tr : Transport) (cmd : String)
    (args : List ℚ) :
    d.HasCommand cmd = true ↔
      ¬ ∃ s, (d.Call h tr cmd args).1 = .error (.unavailableCommand s) := by
  rw [Device.HasCommand, hasCommandLoop_iff]
  constructor
  · rintro hmem ⟨s, hs⟩
    by_cases hlen : 1 < args.length
    · rw [call_tooMany d h tr cmd args hmem hlen] at hs
      simp at hs
    · rcases call_dispatch d h tr cmd args hmem hlen with hok | ⟨e, he⟩
      · rw [hok] at hs
        simp at hs
      · rw [he] at hs
        simp at hs
  · intro hns
    by_contra hmem
    exact hns ⟨cmd, by rw [call_not_found d h tr cmd args hmem]⟩

end GoSmart
